import Mathlib

/-!
Verification of the pushed-down expression evaluator of `util/xeval/evaluator.rs`
against its specification.  The evaluator proper is embedded directly from the
source; the value model and codec (`util/codec`, not among the excerpted
sources) are modelled from the specification where noted.
-/

namespace TikvXeval

/-- Error taxonomy of the `xeval` module.  Modelled from the spec (section 7):
the error enum itself lives in `util/xeval/mod.rs`, which is not among the
excerpted sources; the spec names the kinds Eval, Expr, Codec and
Unimplemented.  The extra constructor `panicNotImplemented` models a Rust
`unimplemented!()` macro invocation, which panics (aborts the thread) instead
of returning an error value; it is kept distinct from `unimplemented` so that
panicking and returning an error are distinguishable in the model. -/
inductive Error where
  | evalErr (msg : String)
  | exprErr (msg : String)
  | codecErr (msg : String)
  | unimplemented
  | panicNotImplemented (msg : String)
deriving DecidableEq, Repr

/-- The `Datum` tagged scalar (spec section 3.1).  `i64` carries a
mathematical integer (decoding produces two's-complement values in range);
`u64` a natural number; `bytes` the raw byte string as a list of byte values.
The float variants carry no payload: floating-point values are out of the
evaluator's scope (spec sections 3.1 and 4.A; every operation on them fails),
and no claim concerns their payloads. -/
inductive Datum where
  | null
  | i64 (v : Int)
  | u64 (v : Nat)
  | bytes (b : List Nat)
  | f32
  | f64
deriving DecidableEq, Repr

/-- The expression-kind enum `tipb::ExprType` restricted to the kinds the
dispatcher names (spec section 6.2); `Other` stands for every remaining kind
of the wire enum, which the dispatcher sends to its catch-all arm. -/
inductive ExprType where
  | Null
  | Int64
  | Uint64
  | Float32
  | Float64
  | String
  | Bytes
  | ColumnRef
  | ValueList
  | LT
  | LE
  | EQ
  | NE
  | GE
  | GT
  | NullEQ
  | And
  | Or
  | Not
  | Like
  | In
  | Other (code : Nat)
deriving DecidableEq, Repr

/-- A `tipb::Expr` node: an operator kind, ordered children and a raw byte
payload (spec section 3.3). -/
inductive Expr where
  | mk (tp : ExprType) (children : List Expr) (val : List Nat)

def Expr.get_tp : Expr → ExprType
  | .mk tp _ _ => tp

def Expr.get_children : Expr → List Expr
  | .mk _ cs _ => cs

def Expr.get_val : Expr → List Nat
  | .mk _ _ v => v

/-- Big-endian value of a byte list. -/
def beNat (bs : List Nat) : Nat := bs.foldl (fun a b => a * 256 + b) 0

/-- Two's-complement reading of an 8-byte big-endian value. -/
def toSigned64 (n : Nat) : Int := if n < 2 ^ 63 then (n : Int) else (n : Int) - 2 ^ 64

/-- Modelled from the spec (section 4.B): `number::decode_i64` interprets
exactly 8 bytes as big-endian, an error when fewer are available.  The source
file `util/codec/number.rs` is not among the excerpted sources. -/
def decode_i64 (bs : List Nat) : Except Error Int :=
  if bs.length < 8 then .error (.codecErr "insufficient bytes to decode value")
  else .ok (toSigned64 (beNat (bs.take 8)))

/-- Modelled from the spec (section 4.B), unsigned companion of `decode_i64`. -/
def decode_u64 (bs : List Nat) : Except Error Nat :=
  if bs.length < 8 then .error (.codecErr "insufficient bytes to decode value")
  else .ok (beNat (bs.take 8))

def isDigitByte (b : Nat) : Bool := 48 ≤ b && b ≤ 57

def digitsToNat (l : List Nat) : Option Nat :=
  if !l.isEmpty && l.all isDigitByte then
    some (l.foldl (fun a d => a * 10 + (d - 48)) 0)
  else none

/-- Modelled from the spec (section 4.A): the codec-defined decimal parse used
when bytes are coerced to a number — an optional leading minus sign then a
nonempty run of decimal digits. -/
def parseDec : List Nat → Option Int
  | 45 :: rest => (digitsToNat rest).map (fun n => -(n : Int))
  | l => (digitsToNat l).map (fun n => (n : Int))

/-- Lexicographic comparison of byte strings by unsigned byte value. -/
def lexCmp : List Nat → List Nat → Ordering
  | [], [] => .eq
  | [], _ :: _ => .lt
  | _ :: _, [] => .gt
  | a :: l1, b :: l2 =>
    match compare a b with
    | .eq => lexCmp l1 l2
    | o => o

/-- Modelled from the spec (sections 3.4 and 4.A): the `Datum` comparison.
Null sorts first (Null equals Null and is below everything else); integers
compare as mathematical integers across signedness; byte strings compare
lexicographically; an integer against bytes goes through the decimal parse,
whose failure is an Eval error; floats are outside the evaluator scope and
fail with Unimplemented.  `util/codec/datum.rs` is not among the excerpted
sources. -/
def Datum.cmp : Datum → Datum → Except Error Ordering
  | .null, .null => .ok .eq
  | .null, _ => .ok .lt
  | _, .null => .ok .gt
  | .i64 a, .i64 b => .ok (compare a b)
  | .i64 a, .u64 b => .ok (compare a (b : Int))
  | .u64 a, .i64 b => .ok (compare (a : Int) b)
  | .u64 a, .u64 b => .ok (compare a b)
  | .bytes a, .bytes b => .ok (lexCmp a b)
  | .i64 a, .bytes b =>
    match parseDec b with
    | some n => .ok (compare a n)
    | none => .error (.evalErr "invalid number")
  | .bytes b, .i64 a =>
    match parseDec b with
    | some n => .ok (compare n a)
    | none => .error (.evalErr "invalid number")
  | .u64 a, .bytes b =>
    match parseDec b with
    | some n => .ok (compare (a : Int) n)
    | none => .error (.evalErr "invalid number")
  | .bytes b, .u64 a =>
    match parseDec b with
    | some n => .ok (compare n (a : Int))
    | none => .error (.evalErr "invalid number")
  | _, _ => .error .unimplemented

/-- Modelled from the spec (section 4.A, boolean coercion): zero integers are
false, other integers true; bytes parse as a decimal number first; null is
never passed here (the guarding helper `eval_into_bool` filters it). -/
def Datum.into_bool : Datum → Except Error Bool
  | .i64 v => .ok (v != 0)
  | .u64 v => .ok (v != 0)
  | .bytes b =>
    match parseDec b with
    | some n => .ok (n != 0)
    | none => .error (.evalErr "invalid number")
  | .null => .error (.evalErr "cannot convert null to bool")
  | _ => .error .unimplemented

def isContByte (b : Nat) : Bool := 128 ≤ b && b < 192

/-- UTF-8 decoding of a byte list to its code points, `none` on invalid
input.  Modelled from the spec (section 4.A: `into_string` errors on invalid
UTF-8); rejects continuation bytes in lead position, overlong encodings,
surrogates and values above 0x10FFFF, as Rust `String::from_utf8` does. -/
def utf8Decode : List Nat → Option (List Nat)
  | [] => some []
  | b :: bs =>
    if b < 128 then (utf8Decode bs).map (fun cs => b :: cs)
    else if b < 194 then none
    else if b < 224 then
      match bs with
      | b1 :: bs1 =>
        if isContByte b1 then
          (utf8Decode bs1).map (fun cs => ((b - 192) * 64 + (b1 - 128)) :: cs)
        else none
      | [] => none
    else if b < 240 then
      match bs with
      | b1 :: b2 :: bs2 =>
        if isContByte b1 && isContByte b2 then
          let c := (b - 224) * 4096 + (b1 - 128) * 64 + (b2 - 128)
          if c < 2048 || (55296 ≤ c && c < 57344) then none
          else (utf8Decode bs2).map (fun cs => c :: cs)
        else none
      | _ => none
    else if b < 245 then
      match bs with
      | b1 :: b2 :: b3 :: bs3 =>
        if isContByte b1 && isContByte b2 && isContByte b3 then
          let c := (b - 240) * 262144 + (b1 - 128) * 4096 + (b2 - 128) * 64 + (b3 - 128)
          if c < 65536 || 1114111 < c then none
          else (utf8Decode bs3).map (fun cs => c :: cs)
        else none
      | _ => none
    else none

/-- Modelled from the spec (section 4.A): a UTF-8 string view of the bytes,
an error on invalid UTF-8; only `Bytes` coerces (used only by Like).  A Rust
`String` is its UTF-8 bytes, so the view keeps the byte list. -/
def Datum.into_string : Datum → Except Error (List Nat)
  | .bytes b =>
    if (utf8Decode b).isSome then .ok b
    else .error (.codecErr "invalid utf-8 byte sequence")
  | _ => .error (.evalErr "cannot convert datum to string")

/-- Rust `bool` into `Datum`: `I64(1)` or `I64(0)`. -/
def boolToDatum (b : Bool) : Datum := if b then .i64 1 else .i64 0

/-- The free function `eval_into_bool` of the source: null becomes `none`
("unknown"), every other datum goes through `into_bool`. -/
def eval_into_bool (d : Datum) : Except Error (Option Bool) :=
  if d = .null then .ok none
  else (d.into_bool).map some

/-- Modelled from the spec (section 4.B): the value-list payload is a
self-describing stream, one type tag byte then a type-specific payload.
Tags here: 0 Null, 1 I64 (8 bytes big-endian), 2 U64 (8 bytes big-endian),
3 Bytes (one length byte then that many bytes).  The spec fixes the
tag-plus-payload shape but not the concrete tag values or the bytes framing;
no claim depends on that choice, they quantify over the decoded list.
Errors on a truncated stream or an unknown tag.  The fuel argument (first) is
a structural-recursion device: each step consumes at least one input byte, so
fuel equal to the input length, as `datumDecode` passes, never runs out. -/
def datumDecodeF : Nat → List Nat → Except Error (List Datum)
  | _, [] => .ok []
  | 0, _ :: _ => .error (.codecErr "out of fuel")
  | fuel + 1, 0 :: rest => (datumDecodeF fuel rest).map (fun l => .null :: l)
  | fuel + 1, 1 :: rest =>
    if 8 ≤ rest.length then
      (datumDecodeF fuel (rest.drop 8)).map
        (fun l => .i64 (toSigned64 (beNat (rest.take 8))) :: l)
    else .error (.codecErr "truncated i64 in value list")
  | fuel + 1, 2 :: rest =>
    if 8 ≤ rest.length then
      (datumDecodeF fuel (rest.drop 8)).map (fun l => .u64 (beNat (rest.take 8)) :: l)
    else .error (.codecErr "truncated u64 in value list")
  | fuel + 1, 3 :: n :: rest =>
    if n ≤ rest.length then
      (datumDecodeF fuel (rest.drop n)).map (fun l => .bytes (rest.take n) :: l)
    else .error (.codecErr "truncated bytes in value list")
  | _ + 1, _ :: _ => .error (.codecErr "unknown value list tag")

/-- `datum::decode` applied to a value-list payload. -/
def datumDecode (l : List Nat) : Except Error (List Datum) := datumDecodeF l.length l

/-- The probing loop of `check_in`: Rust `slice::binary_search_by` with the
error-recording comparator of the source — a comparator error is remembered
(later errors overwrite earlier ones) and treated as Less so the search goes
on.  Probes `mid = left + (right - left) / 2` exactly as the standard library
does.  The fuel argument is a structural-recursion device: the range shrinks
by at least one each step, so fuel equal to the initial range size, as
`check_in` passes, never runs out. -/
def checkInLoopF (fuel : Nat) (f : Nat → Except Error Ordering)
    (left right : Nat) (err : Option Error) : Bool × Option Error :=
  match fuel with
  | 0 => (false, err)
  | fuel + 1 =>
    if left < right then
      let mid := left + (right - left) / 2
      match f mid with
      | .ok .lt => checkInLoopF fuel f (mid + 1) right err
      | .ok .eq => (true, err)
      | .ok .gt => checkInLoopF fuel f left mid err
      | .error e => checkInLoopF fuel f (mid + 1) right (some e)
    else (false, err)

/-- The free function `check_in` of the source: binary-search the sorted
value list for the target with `Datum.cmp`; if any comparison errored, that
error is returned even when a position was found, otherwise whether the
search succeeded. -/
def check_in (target : Datum) (value_list : List Datum) : Except Error Bool :=
  match checkInLoopF value_list.length
      (fun i => Datum.cmp (value_list.getD i .null) target)
      0 value_list.length none with
  | (_, some e) => .error e
  | (found, none) => .ok found

/-- The `Evaluator` state: the row binding map and the decoded value-list
cache (source lines 25-31).  Hash maps are modelled as association lists. -/
structure Evaluator where
  row : List (Int × Datum)
  cached_value_list : List (List Nat × List Datum)
deriving DecidableEq

/-- The mapping `c < Ordering::Equal`, `c <= Ordering::Equal`, ... of
`eval_lt` .. `eval_gt` (Less is below Equal is below Greater). -/
def ordSatisfies (tp : ExprType) (o : Ordering) : Bool :=
  match tp with
  | .LT => o == .lt
  | .LE => o != .gt
  | .EQ => o == .eq
  | .NE => o != .eq
  | .GE => o != .lt
  | .GT => o == .gt
  | _ => false

/-- `cmp_children` followed by the per-operator mapping of `eval_lt` ..
`eval_gt`: a null operand yields Null without comparing, otherwise the
comparison outcome is mapped to `I64(1)` or `I64(0)`. -/
def cmpChildrenPost (tp : ExprType) (left right : Datum) : Except Error Datum :=
  if left = .null ∨ right = .null then .ok .null
  else (Datum.cmp left right).map (fun o => boolToDatum (ordSatisfies tp o))

/-- The body of `eval_null_eq` after the two children are evaluated: `cmp` is
called unconditionally (nulls included) and equality mapped to a boolean. -/
def nullEqPost (left right : Datum) : Except Error Datum :=
  (Datum.cmp left right).map (fun o => boolToDatum (o == .eq))

/-- The match of `eval_and` over the two operand truth values. -/
def andPost : Option Bool × Option Bool → Datum
  | (some true, some true) => boolToDatum true
  | (some false, _) => boolToDatum false
  | (_, some false) => boolToDatum false
  | _ => .null

/-- The match of `eval_or` over the two operand truth values. -/
def orPost : Option Bool × Option Bool → Datum
  | (some true, _) => boolToDatum true
  | (_, some true) => boolToDatum true
  | (some false, some false) => boolToDatum false
  | _ => .null

/-- `eval_two_children_as_bool` after the children are evaluated, followed by
the match of `eval_and` or `eval_or`: both datums are coerced (left first, so
a left coercion error wins), then the Kleene table applies. -/
def logicPost (tp : ExprType) (left right : Datum) : Except Error Datum :=
  match eval_into_bool left with
  | .error e => .error e
  | .ok b1 =>
    match eval_into_bool right with
    | .error e => .error e
    | .ok b2 =>
      .ok (match tp with
           | .And => andPost (b1, b2)
           | _ => orPost (b1, b2))

/-- Rust `u8::to_ascii_lowercase`, the byte map of ASCII casefolding. -/
def lowerByte (b : Nat) : Nat := if 65 ≤ b && b ≤ 90 then b + 32 else b

/-- A code point that Rust reports as both `is_ascii` and `is_alphabetic`:
Unicode-alphabetic restricted to ASCII is exactly the letters A-Z and a-z. -/
def isAsciiAlphaCp (c : Nat) : Bool := (65 ≤ c && c ≤ 90) || (97 ≤ c && c ≤ 122)

/-- The Rust condition `pattern_str.chars().any(|x| x.is_ascii() &&
x.is_alphabetic())` over a UTF-8 string, reading its code points.  The
argument has already passed `into_string`, so decoding cannot fail and the
default branch is unreachable. -/
def hasAsciiAlpha (s : List Nat) : Bool :=
  ((utf8Decode s).getD []).any isAsciiAlphaCp

/-- Rust `str::starts_with` with a string pattern: a byte-prefix test. -/
def isStart : List Nat → List Nat → Bool
  | [], _ => true
  | _ :: _, [] => false
  | p :: ps, t :: ts => p == t && isStart ps ts

/-- Rust `str::ends_with` with a string pattern: a byte-suffix test. -/
def isEnd (p t : List Nat) : Bool := isStart p.reverse t.reverse

/-- Rust `str::contains` with a string pattern: a byte-substring test. -/
def isSub (p : List Nat) : List Nat → Bool
  | [] => p.isEmpty
  | t :: ts => isStart p (t :: ts) || isSub p ts

/-- The matching part of `eval_like`, after both operands are coerced to
strings: the casefold step and the percent-placement dispatch.  The Rust
`starts_with('%')` and `ends_with('%')` tests are the byte-37 tests on the
ends (on valid UTF-8 an ASCII byte never occurs inside a multi-byte
character), and the byte slicings `pattern_str[1..]`, `[..len - 1]` and
`[1..len - 1]` are `drop 1` and `dropLast` because the bytes removed are the
matched single-byte percent characters. -/
def likeMatchBody (ts ps : List Nat) : Datum :=
  let t := if hasAsciiAlpha ps then ts.map lowerByte else ts
  let p := if hasAsciiAlpha ps then ps.map lowerByte else ps
  if p.head? = some 37 then
    if (p.drop 1).getLast? = some 37 then
      boolToDatum (isSub ((p.drop 1).dropLast) t)
    else
      boolToDatum (isEnd (p.drop 1) t)
  else if p.getLast? = some 37 then
    boolToDatum (isStart p.dropLast t)
  else
    boolToDatum (t == p)

/-- The body of `eval_like` after the two children are evaluated: a Null
operand yields Null, both operands are coerced to strings (target first, so a
target coercion error wins), then `likeMatchBody` decides the match. -/
def likePost (target pat : Datum) : Except Error Datum :=
  if target = .null ∨ pat = .null then .ok .null
  else
    match target.into_string, pat.into_string with
    | .ok ts, .ok ps => .ok (likeMatchBody ts ps)
    | .error e, _ => .error e
    | .ok _, .error e => .error e

/-- `eval_int` of the source. -/
def eval_int (val : List Nat) : Except Error Datum :=
  (decode_i64 val).map (fun i => .i64 i)

/-- `eval_uint` of the source. -/
def eval_uint (val : List Nat) : Except Error Datum :=
  (decode_u64 val).map (fun u => .u64 u)

/-- `eval_column_ref` of the source: decode the column id and look it up in
the row bindings; a missing column is a hard Eval error. -/
def Evaluator.eval_column_ref (ev : Evaluator) (val : List Nat) : Except Error Datum :=
  match decode_i64 val with
  | .error e => .error e
  | .ok i =>
    match ev.row.lookup i with
    | some d => .ok d
    | none => .error (.evalErr ("column " ++ toString i ++ " not found"))

/-- `decode_value_list` of the source.  The source caches by the node's raw
pointer; within one immutable tree distinct nodes have distinct addresses and
every cache entry always holds the decode of the node's `val` bytes, so
keying by the `val` bytes is observationally equivalent and keeps the model
pure. -/
def Evaluator.decode_value_list (ev : Evaluator) (value_list_expr : Expr) :
    (Except Error (List Datum)) × Evaluator :=
  match ev.cached_value_list.lookup value_list_expr.get_val with
  | some l => (.ok l, ev)
  | none =>
    match datumDecode value_list_expr.get_val with
    | .ok l =>
      (.ok l,
       { ev with cached_value_list := (value_list_expr.get_val, l) :: ev.cached_value_list })
    | .error e => (.error e, ev)

/-- `Evaluator::eval` of the source (lines 35-58) with the per-operator
handlers `eval_lt` .. `eval_in` inlined: the shared two-child evaluation of
`eval_two_children` (arity check first, then left child, then right child) is
the match on `[c1, c2]`, and the pure parts after child evaluation live in
`cmpChildrenPost`, `nullEqPost`, `logicPost`, `likePost` and `check_in`.
`Float32`/`Float64` hit `unimplemented!()` in the source, a panic, modelled
as the distinguished `Error.panicNotImplemented`.  Every kind without an arm
of its own — `Null`, `ValueList` and the rest of the wire enum — falls to the
catch-all and yields Null. -/
def Evaluator.eval (ev : Evaluator) (e : Expr) : (Except Error Datum) × Evaluator :=
  match e with
  | .mk tp children val =>
    match tp with
    | .Int64 => (eval_int val, ev)
    | .Uint64 => (eval_uint val, ev)
    | .String => (.ok (.bytes val), ev)
    | .Bytes => (.ok (.bytes val), ev)
    | .ColumnRef => (ev.eval_column_ref val, ev)
    | .LT | .LE | .EQ | .NE | .GE | .GT =>
      match children with
      | [c1, c2] =>
        match ev.eval c1 with
        | (.error e1, ev1) => (.error e1, ev1)
        | (.ok d1, ev1) =>
          match ev1.eval c2 with
          | (.error e2, ev2) => (.error e2, ev2)
          | (.ok d2, ev2) => (cmpChildrenPost tp d1 d2, ev2)
      | l => (.error (.exprErr ("need 2 operands but got " ++ toString l.length)), ev)
    | .NullEQ =>
      match children with
      | [c1, c2] =>
        match ev.eval c1 with
        | (.error e1, ev1) => (.error e1, ev1)
        | (.ok d1, ev1) =>
          match ev1.eval c2 with
          | (.error e2, ev2) => (.error e2, ev2)
          | (.ok d2, ev2) => (nullEqPost d1 d2, ev2)
      | l => (.error (.exprErr ("need 2 operands but got " ++ toString l.length)), ev)
    | .And | .Or =>
      match children with
      | [c1, c2] =>
        match ev.eval c1 with
        | (.error e1, ev1) => (.error e1, ev1)
        | (.ok d1, ev1) =>
          match ev1.eval c2 with
          | (.error e2, ev2) => (.error e2, ev2)
          | (.ok d2, ev2) => (logicPost tp d1 d2, ev2)
      | l => (.error (.exprErr ("need 2 operands but got " ++ toString l.length)), ev)
    | .Not =>
      match children with
      | [c1] =>
        match ev.eval c1 with
        | (.error e1, ev1) => (.error e1, ev1)
        | (.ok d, ev1) =>
          if d = .null then (.ok .null, ev1)
          else ((d.into_bool).map (fun b => boolToDatum (!b)), ev1)
      | l => (.error (.exprErr ("expect 1 operand, got " ++ toString l.length)), ev)
    | .Like =>
      match children with
      | [c1, c2] =>
        match ev.eval c1 with
        | (.error e1, ev1) => (.error e1, ev1)
        | (.ok d1, ev1) =>
          match ev1.eval c2 with
          | (.error e2, ev2) => (.error e2, ev2)
          | (.ok d2, ev2) => (likePost d1 d2, ev2)
      | l => (.error (.exprErr ("need 2 operands but got " ++ toString l.length)), ev)
    | .Float32 | .Float64 => (.error (.panicNotImplemented "not implemented"), ev)
    | .In =>
      match children with
      | [c1, vl] =>
        match ev.eval c1 with
        | (.error e1, ev1) => (.error e1, ev1)
        | (.ok t, ev1) =>
          if t = .null then (.ok .null, ev1)
          else if vl.get_tp ≠ .ValueList then
            (.error (.exprErr "the second children should be value list type"), ev1)
          else
            match ev1.decode_value_list vl with
            | (.error e2, ev2) => (.error e2, ev2)
            | (.ok decoded, ev2) =>
              match check_in t decoded with
              | .error e3 => (.error e3, ev2)
              | .ok true => (.ok (boolToDatum true), ev2)
              | .ok false =>
                if decoded.head? = some .null then (.ok .null, ev2)
                else (.ok (boolToDatum false), ev2)
      | l => (.error (.exprErr ("IN need 2 operand, got " ++ toString l.length)), ev)
    | _ => (.ok .null, ev)

/-! Spec-side definitions: statements of claimed semantics written from the
specification's words, to be compared with the evaluator above. -/

/-- The claimed Kleene conjunction table over operand truth values (spec
section 8.1, invariant 3): true exactly when both operands are true, false
when either is false, otherwise Null. -/
def kleeneAnd (a b : Option Bool) : Datum :=
  if a = some true ∧ b = some true then boolToDatum true
  else if a = some false ∨ b = some false then boolToDatum false
  else .null

/-- The claimed Kleene disjunction table (spec section 8.1, invariant 4):
true when either operand is true, false exactly when both are false,
otherwise Null. -/
def kleeneOr (a b : Option Bool) : Datum :=
  if a = some true ∨ b = some true then boolToDatum true
  else if a = some false ∧ b = some false then boolToDatum false
  else .null

/-- The claimed trigger for Like casefolding: the pattern contains at least
one ASCII alphabetic character, read over the pattern's decoded code points. -/
def patternLetterCond (ps : List Nat) : Prop :=
  ∃ c ∈ (utf8Decode ps).getD [], isAsciiAlphaCp c = true

instance patternLetterCondDec (ps : List Nat) : Decidable (patternLetterCond ps) := by
  unfold patternLetterCond
  infer_instance

/-- The claimed Like semantics: lowercase both strings (ASCII casefold)
exactly when the pattern contains an ASCII alphabetic character — otherwise
match the original target byte-exactly — then dispatch on percent placement:
a pattern of the shape percent-X-percent asks for X as a substring of the
target, percent-X for X as a suffix, X-percent for X as a prefix, and a bare
X for exact equality. -/
def likeSpecHolds (ts ps : List Nat) : Prop :=
  let fold : List Nat → List Nat :=
    fun s => if patternLetterCond ps then s.map lowerByte else s
  let t := fold ts
  let p := fold ps
  if p.head? = some 37 then
    if (p.drop 1).getLast? = some 37 then
      ∃ u v, t = u ++ ((p.drop 1).dropLast) ++ v
    else ∃ u, t = u ++ p.drop 1
  else if p.getLast? = some 37 then
    ∃ u, t = p.dropLast ++ u
  else t = p

/-- Rank of a comparison outcome along a sorted list: Less before Equal
before Greater.  A list sorted relative to the binary-search target yields
outcomes of monotone rank. -/
def ordRank : Ordering → Nat
  | .lt => 0
  | .eq => 1
  | .gt => 2

/-! Concrete fixtures used by the witness theorems. -/

/-- An evaluator with empty row bindings and an empty cache. -/
def ev0 : Evaluator := ⟨[], []⟩

/-- An `Int64` literal node from its 8-byte big-endian payload. -/
def intLit (bs : List Nat) : Expr := .mk .Int64 [] bs

/-- A `Null`-kind node. -/
def nullLit : Expr := .mk .Null [] []

/-- A `Bytes` literal node. -/
def bytesLit (bs : List Nat) : Expr := .mk .Bytes [] bs

/-! Claim theorems. -/

/-- C7 counterexample: at the concrete `Float32` node the evaluator hits
`unimplemented!()`, a panic (the distinguished abort outcome of the model),
and in particular does not return the Unimplemented error value the claim
describes. -/
theorem float_eval_no_returned_error :
    (Evaluator.eval ev0 (.mk .Float32 [] [])).1
      = .error (.panicNotImplemented "not implemented") ∧
    Error.panicNotImplemented "not implemented" ≠ Error.unimplemented := by
  exact ⟨rfl, by decide⟩

/-- C7 (amended): evaluating an expression node of kind `Float32` or
`Float64` panics via `unimplemented!()` — evaluation aborts — rather than
returning an Unimplemented error value, for every such node. -/
theorem float_eval_panics (ev : Evaluator) (children : List Expr) (val : List Nat) :
    ev.eval (.mk .Float32 children val)
        = (.error (.panicNotImplemented "not implemented"), ev) ∧
    ev.eval (.mk .Float64 children val)
        = (.error (.panicNotImplemented "not implemented"), ev) := by
  constructor <;> simp [Evaluator.eval]

/-- C8: every expression node whose kind is outside the set the dispatcher
handles — `Null`, `ValueList` and every remaining wire kind — evaluates to
`Datum.Null`, whatever its children and payload, leaving the state unchanged. -/
theorem unknown_kind_evaluates_null (ev : Evaluator) (tp : ExprType)
    (children : List Expr) (val : List Nat)
    (h : tp = .Null ∨ tp = .ValueList ∨ ∃ n, tp = .Other n) :
    ev.eval (.mk tp children val) = (.ok .null, ev) := by
  rcases h with h | h | ⟨n, h⟩ <;> subst h <;> simp [Evaluator.eval]

/-- C8 witness: a node of an unlisted wire kind with children and a payload
still evaluates to Null. -/
theorem unknown_kind_evaluates_null_witness :
    ((ExprType.Other 99) = .Null ∨ (ExprType.Other 99) = .ValueList ∨
      ∃ n, (ExprType.Other 99) = .Other n) ∧
    Evaluator.eval ev0 (.mk (.Other 99) [nullLit] [7]) = (.ok .null, ev0) :=
  ⟨.inr (.inr ⟨99, rfl⟩),
   unknown_kind_evaluates_null ev0 (.Other 99) [nullLit] [7] (.inr (.inr ⟨99, rfl⟩))⟩

/-- C10: for an `In` node with two children whose first child evaluates to
Null, the evaluator returns Null even when the second child is not a
`ValueList` node — the Null-target early return precedes the structural check
on the second child, so no Expr error is raised. -/
theorem in_null_target_skips_valuelist_check (ev ev1 : Evaluator) (c1 vl : Expr)
    (val : List Nat)
    (h1 : ev.eval c1 = (.ok .null, ev1)) :
    ev.eval (.mk .In [c1, vl] val) = (.ok .null, ev1) := by
  simp [Evaluator.eval, h1]

/-- C10 witness: target is a Null literal, the second child an `Int64` node
(not a `ValueList`), and the In node still evaluates to Null. -/
theorem in_null_target_skips_valuelist_check_witness :
    Evaluator.eval ev0 nullLit = (.ok .null, ev0) ∧
    Evaluator.eval ev0 (.mk .In [nullLit, intLit [0, 0, 0, 0, 0, 0, 0, 1]] [])
      = (.ok .null, ev0) :=
  ⟨rfl, in_null_target_skips_valuelist_check ev0 ev0 nullLit
    (intLit [0, 0, 0, 0, 0, 0, 0, 1]) [] rfl⟩

/-- C2: for every comparison operator and children evaluating to datums of
which either is Null, the comparison node evaluates to Null. -/
theorem comparison_null_propagation (tp : ExprType) (ev ev1 ev2 : Evaluator)
    (c1 c2 : Expr) (d1 d2 : Datum) (val : List Nat)
    (htp : tp = .LT ∨ tp = .LE ∨ tp = .EQ ∨ tp = .NE ∨ tp = .GE ∨ tp = .GT)
    (h1 : ev.eval c1 = (.ok d1, ev1))
    (h2 : ev1.eval c2 = (.ok d2, ev2))
    (hnull : d1 = .null ∨ d2 = .null) :
    ev.eval (.mk tp [c1, c2] val) = (.ok .null, ev2) := by
  rcases htp with h | h | h | h | h | h <;> subst h <;>
    simp [Evaluator.eval, h1, h2, cmpChildrenPost, hnull]

/-- C2 witness: `LT` with a non-null left operand and a Null right operand
evaluates to Null. -/
theorem comparison_null_propagation_witness :
    Evaluator.eval ev0 (intLit [0, 0, 0, 0, 0, 0, 0, 5]) = (.ok (.i64 5), ev0) ∧
    Evaluator.eval ev0 nullLit = (.ok .null, ev0) ∧
    Evaluator.eval ev0 (.mk .LT [intLit [0, 0, 0, 0, 0, 0, 0, 5], nullLit] [])
      = (.ok .null, ev0) :=
  ⟨rfl, rfl,
   comparison_null_propagation .LT ev0 ev0 ev0 (intLit [0, 0, 0, 0, 0, 0, 0, 5])
     nullLit (.i64 5) .null [] (.inl rfl) rfl rfl (.inr rfl)⟩

/-- C5: And and Or do not short-circuit — the right child is evaluated even
when the left child already determines the result, and an error from the
right child becomes the node's result: an `And` whose left operand is false
(or an `Or` whose left operand is true) still propagates the right child's
error. -/
theorem and_or_no_short_circuit (ev ev1 ev2 : Evaluator) (c1 c2 : Expr)
    (d1 : Datum) (er : Error) (val : List Nat)
    (h1 : ev.eval c1 = (.ok d1, ev1))
    (h2 : ev1.eval c2 = (.error er, ev2)) :
    (eval_into_bool d1 = .ok (some false) →
      ev.eval (.mk .And [c1, c2] val) = (.error er, ev2)) ∧
    (eval_into_bool d1 = .ok (some true) →
      ev.eval (.mk .Or [c1, c2] val) = (.error er, ev2)) := by
  constructor <;> intro _ <;> simp [Evaluator.eval, h1, h2]

/-- C5 witness: `And` with a false left operand and a right child that fails
with a missing-column error still returns that error. -/
theorem and_or_no_short_circuit_witness :
    Evaluator.eval ev0 (intLit [0, 0, 0, 0, 0, 0, 0, 0]) = (.ok (.i64 0), ev0) ∧
    Evaluator.eval ev0 (.mk .ColumnRef [] [0, 0, 0, 0, 0, 0, 0, 7])
      = (.error (.evalErr "column 7 not found"), ev0) ∧
    eval_into_bool (.i64 0) = .ok (some false) ∧
    Evaluator.eval ev0
        (.mk .And [intLit [0, 0, 0, 0, 0, 0, 0, 0],
                   .mk .ColumnRef [] [0, 0, 0, 0, 0, 0, 0, 7]] [])
      = (.error (.evalErr "column 7 not found"), ev0) :=
  ⟨rfl, rfl, rfl,
   (and_or_no_short_circuit ev0 ev0 ev0 (intLit [0, 0, 0, 0, 0, 0, 0, 0])
     (.mk .ColumnRef [] [0, 0, 0, 0, 0, 0, 0, 7]) (.i64 0)
     (.evalErr "column 7 not found") [] rfl rfl).1 rfl⟩

/-- The match of `eval_and` computes the claimed Kleene conjunction table. -/
theorem andPost_eq_kleeneAnd : ∀ b1 b2 : Option Bool, andPost (b1, b2) = kleeneAnd b1 b2 := by
  decide

/-- The match of `eval_or` computes the claimed Kleene disjunction table. -/
theorem orPost_eq_kleeneOr : ∀ b1 b2 : Option Bool, orPost (b1, b2) = kleeneOr b1 b2 := by
  decide

/-- C3: `And` and `Or` implement Kleene three-valued logic over the operand
truth values (`some true`, `some false`, `none` for Null): for every
combination, `And` is true exactly when both operands are true, false when
either is false, otherwise Null; `Or` is true when either operand is true,
false exactly when both are false, otherwise Null. -/
theorem and_or_kleene_logic (ev ev1 ev2 : Evaluator) (c1 c2 : Expr) (d1 d2 : Datum)
    (b1 b2 : Option Bool) (val : List Nat)
    (h1 : ev.eval c1 = (.ok d1, ev1)) (h2 : ev1.eval c2 = (.ok d2, ev2))
    (hb1 : eval_into_bool d1 = .ok b1) (hb2 : eval_into_bool d2 = .ok b2) :
    ev.eval (.mk .And [c1, c2] val) = (.ok (kleeneAnd b1 b2), ev2) ∧
    ev.eval (.mk .Or [c1, c2] val) = (.ok (kleeneOr b1 b2), ev2) := by
  constructor <;>
    simp [Evaluator.eval, h1, h2, logicPost, hb1, hb2,
          andPost_eq_kleeneAnd, orPost_eq_kleeneOr]

/-- C3 witness: `And(Null, I64(0))` is false, `Or(Null, I64(0))` is Null. -/
theorem and_or_kleene_logic_witness :
    Evaluator.eval ev0 nullLit = (.ok .null, ev0) ∧
    Evaluator.eval ev0 (intLit [0, 0, 0, 0, 0, 0, 0, 0]) = (.ok (.i64 0), ev0) ∧
    eval_into_bool .null = .ok none ∧
    eval_into_bool (.i64 0) = .ok (some false) ∧
    Evaluator.eval ev0 (.mk .And [nullLit, intLit [0, 0, 0, 0, 0, 0, 0, 0]] [])
      = (.ok (kleeneAnd none (some false)), ev0) ∧
    Evaluator.eval ev0 (.mk .Or [nullLit, intLit [0, 0, 0, 0, 0, 0, 0, 0]] [])
      = (.ok (kleeneOr none (some false)), ev0) :=
  ⟨rfl, rfl, rfl, rfl,
   (and_or_kleene_logic ev0 ev0 ev0 nullLit (intLit [0, 0, 0, 0, 0, 0, 0, 0])
     .null (.i64 0) none (some false) [] rfl rfl rfl rfl).1,
   (and_or_kleene_logic ev0 ev0 ev0 nullLit (intLit [0, 0, 0, 0, 0, 0, 0, 0])
     .null (.i64 0) none (some false) [] rfl rfl rfl rfl).2⟩

/-- C4: `NullEQ` is total over possibly-null operands: whenever it returns a
value the value is `I64(0)` or `I64(1)`; both operands Null gives `I64(1)`;
exactly one Null operand gives `I64(0)`; and whenever the comparison
succeeds, the result is `I64(1)` exactly when the outcome is Equal. -/
theorem null_eq_totality (ev ev1 ev2 : Evaluator) (c1 c2 : Expr) (d1 d2 : Datum)
    (val : List Nat)
    (h1 : ev.eval c1 = (.ok d1, ev1)) (h2 : ev1.eval c2 = (.ok d2, ev2)) :
    (∀ v, (ev.eval (.mk .NullEQ [c1, c2] val)).1 = .ok v → v = .i64 0 ∨ v = .i64 1) ∧
    (d1 = .null → d2 = .null →
      ev.eval (.mk .NullEQ [c1, c2] val) = (.ok (.i64 1), ev2)) ∧
    (d1 = .null → d2 ≠ .null →
      ev.eval (.mk .NullEQ [c1, c2] val) = (.ok (.i64 0), ev2)) ∧
    (d1 ≠ .null → d2 = .null →
      ev.eval (.mk .NullEQ [c1, c2] val) = (.ok (.i64 0), ev2)) ∧
    (∀ o, Datum.cmp d1 d2 = .ok o →
      ev.eval (.mk .NullEQ [c1, c2] val) = (.ok (boolToDatum (o == .eq)), ev2)) := by
  have he : ev.eval (.mk .NullEQ [c1, c2] val) = (nullEqPost d1 d2, ev2) := by
    simp [Evaluator.eval, h1, h2]
  rw [he]
  refine ⟨?_, ?_, ?_, ?_, ?_⟩
  · intro v hv
    rcases hc : Datum.cmp d1 d2 with e | o <;>
      simp [nullEqPost, hc, Except.map] at hv
    subst hv
    rcases o <;> decide
  · rintro rfl rfl
    rfl
  · rintro rfl hne
    rcases d2 <;> first | exact absurd rfl hne | rfl
  · rintro hne rfl
    rcases d1 <;> first | exact absurd rfl hne | rfl
  · intro o hc
    simp [nullEqPost, hc, Except.map]

/-- C4 witness: `NullEQ(Null, Null)` is `I64(1)`. -/
theorem null_eq_totality_witness :
    Evaluator.eval ev0 nullLit = (.ok .null, ev0) ∧
    Evaluator.eval ev0 (.mk .NullEQ [nullLit, nullLit] []) = (.ok (.i64 1), ev0) :=
  ⟨rfl,
   (null_eq_totality ev0 ev0 ev0 nullLit nullLit .null .null [] rfl rfl).2.1 rfl rfl⟩

/-- Decoding a value list touches only the cache: the row bindings of the
returned state are the row bindings of the input state. -/
theorem decode_value_list_preserves_row (ev : Evaluator) (vl : Expr) :
    ((ev.decode_value_list vl).2).row = ev.row := by
  unfold Evaluator.decode_value_list
  split
  · rfl
  · split <;> rfl

/-- Equation form of `decode_value_list_preserves_row`, convenient when the
call's result pair is named by a hypothesis. -/
theorem decode_value_list_row_eq (ev ev2 : Evaluator) (vl : Expr)
    (r : Except Error (List Datum))
    (h : ev.decode_value_list vl = (r, ev2)) : ev2.row = ev.row := by
  have hp := decode_value_list_preserves_row ev vl
  rw [h] at hp
  exact hp

/-- C9: evaluation never mutates the row binding map — for every expression
and every starting state, the state returned by `eval` (on success and on
error alike) carries the same row bindings; only the value-list cache may
change. -/
theorem eval_preserves_row (ev : Evaluator) (e : Expr) : ((ev.eval e).2).row = ev.row := by
  induction ev, e using Evaluator.eval.induct <;>
    simp_all [Evaluator.eval] <;>
    first
      | rfl
      | exact (decode_value_list_row_eq _ _ _ _ (by assumption)).trans (by assumption)

/-- `isStart` decides the byte-prefix relation. -/
theorem isStart_iff (p t : List Nat) : isStart p t = true ↔ ∃ u, t = p ++ u := by
  induction p generalizing t with
  | nil => simp [isStart]
  | cons a ps ih =>
    cases t with
    | nil => simp [isStart]
    | cons b ts =>
      simp only [isStart, Bool.and_eq_true, beq_iff_eq, ih]
      constructor
      · rintro ⟨rfl, u, rfl⟩
        exact ⟨u, rfl⟩
      · rintro ⟨u, hu⟩
        rw [List.cons_append] at hu
        injection hu with h1 h2
        exact ⟨h1.symm, u, h2⟩

/-- `isEnd` decides the byte-suffix relation. -/
theorem isEnd_iff (p t : List Nat) : isEnd p t = true ↔ ∃ u, t = u ++ p := by
  rw [isEnd, isStart_iff]
  constructor
  · rintro ⟨u, hu⟩
    refine ⟨u.reverse, ?_⟩
    have hr := congrArg List.reverse hu
    simpa using hr
  · rintro ⟨u, rfl⟩
    exact ⟨u.reverse, by simp⟩

/-- `isSub` decides the byte-substring relation. -/
theorem isSub_iff (p t : List Nat) : isSub p t = true ↔ ∃ u v, t = u ++ p ++ v := by
  induction t with
  | nil =>
    constructor
    · intro h
      have hp : p = [] := by simpa [isSub, List.isEmpty_iff] using h
      exact ⟨[], [], by simp [hp]⟩
    · rintro ⟨u, v, huv⟩
      rcases List.append_eq_nil.mp huv.symm with ⟨hup, hv⟩
      rcases List.append_eq_nil.mp hup with ⟨hu, hp⟩
      simp [isSub, List.isEmpty_iff, hp]
  | cons b ts ih =>
    simp only [isSub, Bool.or_eq_true, isStart_iff, ih]
    constructor
    · rintro (⟨u, hu⟩ | ⟨u, v, huv⟩)
      · exact ⟨[], u, by simpa using hu⟩
      · exact ⟨b :: u, v, by simp [huv]⟩
    · rintro ⟨u, v, huv⟩
      cases u with
      | nil =>
        left
        exact ⟨v, by simpa using huv⟩
      | cons c u2 =>
        right
        rw [List.cons_append, List.cons_append] at huv
        injection huv with h1 h2
        exact ⟨u2, v, h2⟩

/-- The executable casefold trigger agrees with the claimed condition. -/
theorem hasAsciiAlpha_iff (s : List Nat) :
    hasAsciiAlpha s = true ↔ patternLetterCond s := by
  simp [hasAsciiAlpha, patternLetterCond, List.any_eq_true]

/-- The executable casefold guard and the claimed condition pick the same
branch. -/
theorem fold_cond_eq {α : Type} (ps : List Nat) (x y : α) :
    (if hasAsciiAlpha ps then x else y) = if patternLetterCond ps then x else y := by
  by_cases hA : patternLetterCond ps
  · rw [if_pos hA, if_pos ((hasAsciiAlpha_iff ps).mpr hA)]
  · rw [if_neg hA, if_neg (fun h => hA ((hasAsciiAlpha_iff ps).mp h))]

/-- The match step of Like computes a boolean that holds exactly when the
claimed casefold-then-placement semantics holds. -/
theorem likeMatchBody_spec (ts ps : List Nat) :
    ∃ b : Bool, likeMatchBody ts ps = boolToDatum b ∧ (b = true ↔ likeSpecHolds ts ps) := by
  simp only [likeMatchBody, likeSpecHolds, fold_cond_eq]
  by_cases hh : (if patternLetterCond ps then ps.map lowerByte else ps).head? = some 37
  · rw [if_pos hh, if_pos hh]
    by_cases hl :
        ((if patternLetterCond ps then ps.map lowerByte else ps).drop 1).getLast? = some 37
    · rw [if_pos hl, if_pos hl]
      exact ⟨_, rfl, isSub_iff _ _⟩
    · rw [if_neg hl, if_neg hl]
      exact ⟨_, rfl, isEnd_iff _ _⟩
  · rw [if_neg hh, if_neg hh]
    by_cases hl : (if patternLetterCond ps then ps.map lowerByte else ps).getLast? = some 37
    · rw [if_pos hl, if_pos hl]
      exact ⟨_, rfl, isStart_iff _ _⟩
    · rw [if_neg hl, if_neg hl]
      exact ⟨_, rfl, beq_iff_eq⟩

/-- C6: for a Like node whose operands evaluate to byte strings (valid
UTF-8, as `into_string` requires), the result is `I64(1)` or `I64(0)`, and it
is `I64(1)` exactly when the claimed semantics holds: both strings are
ASCII-lowercased if and only if the pattern contains an ASCII alphabetic
character (a pattern without ASCII letters is matched byte-exactly against
the original target), and the match is decided by percent placement —
substring for percent-X-percent, suffix for percent-X, prefix for X-percent,
exact equality for a bare pattern. -/
theorem like_casefold_placement (ev ev1 ev2 : Evaluator) (c1 c2 : Expr)
    (bt bp : List Nat) (val : List Nat)
    (h1 : ev.eval c1 = (.ok (.bytes bt), ev1))
    (h2 : ev1.eval c2 = (.ok (.bytes bp), ev2))
    (hvt : (utf8Decode bt).isSome = true) (hvp : (utf8Decode bp).isSome = true) :
    ∃ b : Bool, ev.eval (.mk .Like [c1, c2] val) = (.ok (boolToDatum b), ev2) ∧
      (b = true ↔ likeSpecHolds bt bp) := by
  have he : ev.eval (.mk .Like [c1, c2] val) = (likePost (.bytes bt) (.bytes bp), ev2) := by
    simp [Evaluator.eval, h1, h2]
  rcases likeMatchBody_spec bt bp with ⟨b, hb, hbiff⟩
  refine ⟨b, ?_, hbiff⟩
  rw [he]
  simp [likePost, Datum.into_string, hvt, hvp, hb]

/-- C6 witness: the "aAcb" LIKE "%C%" scenario of the source's tests — the
pattern has an ASCII letter, so matching is case-insensitive and succeeds as
a substring match. -/
theorem like_casefold_placement_witness :
    Evaluator.eval ev0 (bytesLit [97, 65, 99, 98]) = (.ok (.bytes [97, 65, 99, 98]), ev0) ∧
    Evaluator.eval ev0 (bytesLit [37, 67, 37]) = (.ok (.bytes [37, 67, 37]), ev0) ∧
    (∃ b : Bool,
      Evaluator.eval ev0 (.mk .Like [bytesLit [97, 65, 99, 98], bytesLit [37, 67, 37]] [])
        = (.ok (boolToDatum b), ev0) ∧
      (b = true ↔ likeSpecHolds [97, 65, 99, 98] [37, 67, 37])) :=
  ⟨rfl, rfl,
   like_casefold_placement ev0 ev0 ev0 (bytesLit [97, 65, 99, 98]) (bytesLit [37, 67, 37])
     [97, 65, 99, 98] [37, 67, 37] [] rfl rfl rfl rfl⟩

/-- Correctness of the probing loop when no comparison errors occur: if
every probe answers with the outcome recorded in `os` and those outcomes have
monotone rank (the shape a list sorted relative to the target produces), the
loop finds an Equal outcome exactly when one exists in the probed range, and
the recorded error stays as given. -/
theorem checkInLoopF_correct (f : Nat → Except Error Ordering) (os : List Ordering)
    (hf : ∀ i, i < os.length → f i = .ok (os.getD i .eq))
    (hmono : ∀ j, j < os.length → ∀ i, i ≤ j →
      ordRank (os.getD i .eq) ≤ ordRank (os.getD j .eq)) :
    ∀ fuel left right err, right ≤ os.length → right - left ≤ fuel →
      ∃ b, checkInLoopF fuel f left right err = (b, err) ∧
        (b = true ↔ ∃ i, left ≤ i ∧ i < right ∧ os.getD i .eq = .eq) := by
  intro fuel
  induction fuel with
  | zero =>
    intro left right err hr hfu
    refine ⟨false, rfl, ?_⟩
    simp only [Bool.false_eq_true, false_iff]
    rintro ⟨i, h1, h2, _⟩
    omega
  | succ fuel ih =>
    intro left right err hr hfu
    by_cases hlr : left < right
    · have hmid : left + (right - left) / 2 < right := by omega
      have hmlen : left + (right - left) / 2 < os.length := lt_of_lt_of_le hmid hr
      have hfm := hf _ hmlen
      rcases ho : os.getD (left + (right - left) / 2) .eq with _ | _ | _
      · -- probe answered Less: search the upper half
        rw [ho] at hfm
        rcases ih (left + (right - left) / 2 + 1) right err hr (by omega) with ⟨b, hb, hbiff⟩
        refine ⟨b, ?_, ?_⟩
        · simp only [checkInLoopF, if_pos hlr, hfm]
          exact hb
        · rw [hbiff]
          constructor
          · rintro ⟨i, h1, h2, h3⟩
            exact ⟨i, by omega, h2, h3⟩
          · rintro ⟨i, h1, h2, h3⟩
            refine ⟨i, ?_, h2, h3⟩
            by_contra hcon
            push_neg at hcon
            have hrk := hmono _ hmlen i (by omega)
            rw [ho, h3] at hrk
            simp [ordRank] at hrk
      · -- probe answered Equal: found
        rw [ho] at hfm
        refine ⟨true, ?_, ?_⟩
        · simp only [checkInLoopF, if_pos hlr, hfm]
        · exact ⟨fun _ => ⟨left + (right - left) / 2, by omega, hmid, ho⟩, fun _ => rfl⟩
      · -- probe answered Greater: search the lower half
        rw [ho] at hfm
        rcases ih left (left + (right - left) / 2) err
            (le_of_lt hmlen) (by omega) with ⟨b, hb, hbiff⟩
        refine ⟨b, ?_, ?_⟩
        · simp only [checkInLoopF, if_pos hlr, hfm]
          exact hb
        · rw [hbiff]
          constructor
          · rintro ⟨i, h1, h2, h3⟩
            exact ⟨i, h1, by omega, h3⟩
          · rintro ⟨i, h1, h2, h3⟩
            refine ⟨i, h1, ?_, h3⟩
            by_contra hcon
            push_neg at hcon
            have hrk := hmono i (by omega) (left + (right - left) / 2) (by omega)
            rw [ho, h3] at hrk
            simp [ordRank] at hrk
    · refine ⟨false, ?_, ?_⟩
      · simp only [checkInLoopF, if_neg hlr]
      · simp only [Bool.false_eq_true, false_iff]
        rintro ⟨i, h1, h2, _⟩
        omega

/-- `check_in` on a list whose comparisons against the target all succeed
with outcomes of monotone rank returns, with no error, whether some element
compares Equal to the target. -/
theorem check_in_correct (t : Datum) (L : List Datum) (os : List Ordering)
    (hos : L.map (fun d => Datum.cmp d t) = os.map Except.ok)
    (hmono : ∀ j, j < os.length → ∀ i, i ≤ j →
      ordRank (os.getD i .eq) ≤ ordRank (os.getD j .eq)) :
    ∃ b, check_in t L = .ok b ∧
      (b = true ↔ ∃ d ∈ L, Datum.cmp d t = .ok .eq) := by
  have hlen : L.length = os.length := by
    have h := congrArg List.length hos
    simpa using h
  have hf : ∀ i, i < os.length →
      Datum.cmp (L.getD i .null) t = .ok (os.getD i .eq) := by
    intro i hi
    have hiL : i < L.length := by omega
    have h := congrArg (fun l => l[i]?) hos
    simp only [List.getElem?_map] at h
    rw [List.getElem?_eq_getElem hiL, List.getElem?_eq_getElem hi] at h
    simp only [Option.map_some'] at h
    injection h with h
    rw [List.getD_eq_getElem L .null hiL, List.getD_eq_getElem os .eq hi]
    exact h
  rcases checkInLoopF_correct (fun i => Datum.cmp (L.getD i .null) t) os hf hmono
      L.length 0 L.length none (by omega) (by omega) with ⟨b, hb, hbiff⟩
  refine ⟨b, ?_, ?_⟩
  · simp only [check_in, hb]
  · rw [hbiff]
    constructor
    · rintro ⟨i, _, hi, hoeq⟩
      have hiL : i < L.length := hi
      refine ⟨L.getD i .null, ?_, ?_⟩
      · rw [List.getD_eq_getElem L .null hiL]
        exact List.getElem_mem hiL
      · rw [hf i (by omega), hoeq]
    · rintro ⟨d, hd, hcmpd⟩
      rcases List.getElem_of_mem hd with ⟨i, hiL, rfl⟩
      refine ⟨i, by omega, hiL, ?_⟩
      have hfi := hf i (by omega)
      rw [List.getD_eq_getElem L .null hiL, hcmpd] at hfi
      injection hfi with h
      exact h.symm

/-- C1: for an `In` node with a target child and a `ValueList` child whose
payload decodes to the list `L` — sorted relative to the target, Null first
when present, with every comparison against the target succeeding — the
evaluator answers `I64(1)` when some element of `L` compares Equal to the
target, `I64(0)` when none does and `L` holds no Null, Null when none does
and `L` holds a Null, and Null outright when the target evaluates to Null. -/
theorem in_sorted_list_semantics (ev ev1 : Evaluator) (ct vl : Expr) (t : Datum)
    (L : List Datum) (os : List Ordering) (val : List Nat)
    (hvl : vl.get_tp = .ValueList)
    (ht : ev.eval ct = (.ok t, ev1))
    (hdec : datumDecode vl.get_val = .ok L)
    (hcache : ∀ l, ev1.cached_value_list.lookup vl.get_val = some l → l = L)
    (hos : L.map (fun d => Datum.cmp d t) = os.map Except.ok)
    (hmono : ∀ j, j < os.length → ∀ i, i ≤ j →
      ordRank (os.getD i .eq) ≤ ordRank (os.getD j .eq))
    (hnullfirst : Datum.null ∈ L → L.head? = some Datum.null) :
    (t = .null → (ev.eval (.mk .In [ct, vl] val)).1 = .ok .null) ∧
    (t ≠ .null → (∃ d ∈ L, Datum.cmp d t = .ok .eq) →
      (ev.eval (.mk .In [ct, vl] val)).1 = .ok (.i64 1)) ∧
    (t ≠ .null → (¬ ∃ d ∈ L, Datum.cmp d t = .ok .eq) → Datum.null ∉ L →
      (ev.eval (.mk .In [ct, vl] val)).1 = .ok (.i64 0)) ∧
    (t ≠ .null → (¬ ∃ d ∈ L, Datum.cmp d t = .ok .eq) → Datum.null ∈ L →
      (ev.eval (.mk .In [ct, vl] val)).1 = .ok .null) := by
  have hdvl : ∃ ev2, ev1.decode_value_list vl = (.ok L, ev2) := by
    rcases hl : ev1.cached_value_list.lookup vl.get_val with _ | l
    · refine ⟨{ ev1 with
        cached_value_list := (vl.get_val, L) :: ev1.cached_value_list }, ?_⟩
      simp only [Evaluator.decode_value_list, hl, hdec]
    · refine ⟨ev1, ?_⟩
      simp only [Evaluator.decode_value_list, hl, hcache l hl]
  obtain ⟨ev2, hdvl⟩ := hdvl
  obtain ⟨b, hchk, hbiff⟩ := check_in_correct t L os hos hmono
  refine ⟨?_, ?_, ?_, ?_⟩
  · intro htn
    simp [Evaluator.eval, ht, htn]
  · intro htnn hfound
    have hb : b = true := hbiff.mpr hfound
    subst hb
    simp [Evaluator.eval, ht, htnn, hvl, hdvl, hchk, boolToDatum]
  · intro htnn hnotf hnonull
    have hb : b = false := by
      rcases b
      · rfl
      · exact absurd (hbiff.mp rfl) hnotf
    subst hb
    have hhead : ¬ L.head? = some Datum.null := by
      intro hh
      rcases L with _ | ⟨x, L2⟩
      · exact Option.noConfusion hh
      · injection hh with hh
        exact hnonull (hh ▸ List.mem_cons_self x L2)
    simp [Evaluator.eval, ht, htnn, hvl, hdvl, hchk, hhead, boolToDatum]
  · intro htnn hnotf hnull
    have hb : b = false := by
      rcases b
      · rfl
      · exact absurd (hbiff.mp rfl) hnotf
    subst hb
    simp [Evaluator.eval, ht, htnn, hvl, hdvl, hchk, hnullfirst hnull]

/-- C1 witness: `In(I64(1), [I64(1), I64(2)])` — the value-list payload
decodes to the sorted list, the comparisons against the target are
`[Equal, Greater]`, and the evaluator answers `I64(1)`. -/
theorem in_sorted_list_semantics_witness :
    datumDecode [1, 0, 0, 0, 0, 0, 0, 0, 1, 1, 0, 0, 0, 0, 0, 0, 0, 2]
      = .ok [.i64 1, .i64 2] ∧
    (Evaluator.eval ev0
        (.mk .In [intLit [0, 0, 0, 0, 0, 0, 0, 1],
                  .mk .ValueList [] [1, 0, 0, 0, 0, 0, 0, 0, 1, 1, 0, 0, 0, 0, 0, 0, 0, 2]]
          [])).1
      = .ok (.i64 1) :=
  ⟨rfl,
   (in_sorted_list_semantics ev0 ev0 (intLit [0, 0, 0, 0, 0, 0, 0, 1])
      (.mk .ValueList [] [1, 0, 0, 0, 0, 0, 0, 0, 1, 1, 0, 0, 0, 0, 0, 0, 0, 2]) (.i64 1)
      [.i64 1, .i64 2] [.eq, .gt] [] rfl rfl rfl (fun _ h => nomatch h)
      rfl (by decide) (by decide)).2.1 (by decide)
      ⟨.i64 1, List.mem_cons_self _ _, rfl⟩⟩

end TikvXeval
